import Mathlib

/-!
Shallow embedding of the cloud-rss-worker core (src/src/index.ts): the
identity hasher, the HTML entity decoder, the 48-hour window filter, the
merge step of the scheduled handler, the sort comparator, the ATOM link
resolution, and the KV retry loop; together with theorems checking the
design documentation against these definitions.
-/

namespace CloudRss

/-! ## Identity hasher (hashUrl, index.ts lines 71 to 80) -/

/-- Signed 32-bit wrap: the canonical representative of n modulo 2 to the
32 lying between -2^31 and 2^31 - 1. Models the JavaScript coercion of a
number to a 32-bit integer, as performed by the bitwise operators. -/
def toInt32 (n : Int) : Int :=
  (n + 2147483648) % 4294967296 - 2147483648

/-- One iteration of the hashUrl loop. In the source, hash comes in as a
32-bit integer; hash shifted left by 5 wraps to 32 bits, then hash is
subtracted and the code unit added in exact double arithmetic, and the
bitwise and of the result with itself wraps to 32 bits again. -/
def hashStep (h : Int) (c : Nat) : Int :=
  toInt32 (toInt32 (h * 32) - h + c)

/-- The hashUrl accumulator after folding over the UTF-16 code units. -/
def hashFold (codes : List Nat) : Int :=
  codes.foldl hashStep 0

/-- The recurrence exactly as the design document words it: the fold
h = (h * 31 + code) wrapped to a signed 32-bit integer. Stated from the
specification for comparison with hashFold, which is stated from the
source. -/
def specHashStep (h : Int) (c : Nat) : Int :=
  toInt32 (h * 31 + c)

/-- Specification-side fold for hashUrl. -/
def specHashFold (codes : List Nat) : Int :=
  codes.foldl specHashStep 0

/-- Digit characters 0 to 9 then a to z, as produced by the JavaScript
number toString with radix 36. -/
def base36DigitChar (d : Nat) : Char :=
  if d < 10 then Char.ofNat (48 + d) else Char.ofNat (87 + d)

/-- Most-significant-first base-36 digit expansion of a number. The fuel
argument keeps the recursion structural; division by 36 strictly shrinks
a positive number, so fuel equal to the number itself is never
exhausted. -/
def toBase36Go : Nat → Nat → List Char → List Char
  | 0, _, acc => acc
  | fuel + 1, n, acc =>
    if n = 0 then acc else toBase36Go fuel (n / 36) (base36DigitChar (n % 36) :: acc)

/-- Base-36 rendering of a natural number, matching toString(36). -/
def toBase36 (n : Nat) : String :=
  if n = 0 then "0" else String.mk (toBase36Go n n [])

/-- hashUrl from index.ts, taking the UTF-16 code units of the url. The
accumulated signed 32-bit hash has its absolute value rendered in
base 36. -/
def hashUrl (codes : List Nat) : String :=
  toBase36 (hashFold codes).natAbs

/-! ## Data model (Article, ParsedArticle) -/

/-- The persisted article record of index.ts. -/
structure Article where
  id : String
  url : String
  title : String
  snippet : String
  source : String
  sourceUrl : String
  publicationDatetime : String
deriving DecidableEq

/-- An article parsed from a feed, before timestamp resolution. -/
structure ParsedArticle where
  id : String
  url : String
  title : String
  snippet : String
  source : String
  sourceUrl : String
deriving DecidableEq

/-- The object spread in the scheduled handler: all parsed fields plus a
resolved publicationDatetime. -/
def articleOf (p : ParsedArticle) (pub : String) : Article :=
  { id := p.id, url := p.url, title := p.title, snippet := p.snippet,
    source := p.source, sourceUrl := p.sourceUrl, publicationDatetime := pub }

/-! ## Window filter, merge and sort (scheduled handler, index.ts lines
237 to 341). Date parsing is environment behaviour, so the definitions
are parameterised by pd, the partial function from timestamp strings to
epoch milliseconds; pd s = none models an invalid date whose getTime is
NaN. The wall clock now is a single epoch-milliseconds value for the
cycle. -/

/-- isWithinLast48Hours from index.ts. An invalid date gives a NaN
comparison that is false; for a valid date the hours difference divided
out of milliseconds is compared with 48, modelled exactly as a
milliseconds comparison with 48 * 3600000. -/
def isWithinLast48Hours (pd : String → Option Int) (now : Int) (s : String) : Bool :=
  match pd s with
  | none => false
  | some t => now - t ≤ 172800000

/-- The lookup built from the previous snapshot: a JS Map is filled with
set article.id article for each article in order, and get returns the
most recent binding, hence the last occurrence wins. -/
def existingGet (prev : List Article) (i : String) : Option Article :=
  prev.foldl (fun acc a => if a.id = i then some a else acc) none

/-- Timestamp resolution of the merge: an id already in the previous
snapshot keeps the prior publicationDatetime, a new id receives the ISO
rendering of the merge wall clock. -/
def resolvePub (prev : List Article) (nowIso : String) (i : String) : String :=
  match existingGet prev i with
  | some e => e.publicationDatetime
  | none => nowIso

/-- The merge map of the scheduled handler: each parsed article is spread
into an Article whose publicationDatetime is resolved against the
previous snapshot. No other combination is performed. -/
def mergeArticles (prev : List Article) (parsed : List ParsedArticle) (nowIso : String) :
    List Article :=
  parsed.map (fun p => articleOf p (resolvePub prev nowIso p.id))

/-- The post-merge recency filter of the scheduled handler. -/
def filterRecent (pd : String → Option Int) (now : Int) (l : List Article) : List Article :=
  l.filter (fun a => isWithinLast48Hours pd now a.publicationDatetime)

/-- The sort comparator of the scheduled handler: zero when both dates
are invalid, invalid dates ordered last, otherwise the difference
dateB - dateA giving descending order. -/
def cmpArticles (pd : String → Option Int) (a b : Article) : Int :=
  match pd a.publicationDatetime, pd b.publicationDatetime with
  | none, none => 0
  | none, some _ => 1
  | some _, none => -1
  | some ta, some tb => tb - ta

/-- The sort call, modelled as a stable merge sort driven by the
comparator, as guaranteed for Array sort with a consistent comparator. -/
def sortArticles (pd : String → Option Int) (l : List Article) : List Article :=
  l.mergeSort (fun a b => cmpArticles pd a b ≤ 0)

/-- One merge cycle of the scheduled handler after the fetches resolve:
flatten the per-source batches, resolve timestamps against the previous
snapshot, filter to the 48-hour window, and sort. -/
def mergedSnapshot (pd : String → Option Int) (now : Int) (nowIso : String)
    (prev : List Article) (batches : List (List ParsedArticle)) : List Article :=
  sortArticles pd (filterRecent pd now (mergeArticles prev batches.flatten nowIso))

/-! ## Text normaliser (decodeHtmlEntities, index.ts lines 38 to 68).
JS strings are sequences of UTF-16 code units; the text handled here is
modelled as a Lean character list. The global regex replace of a literal
pattern is the left-to-right non-overlapping substring replacement
implemented below. -/

/-- If the first list is a prefix of the second, returns the remainder of
the second. -/
def stripPre : List Char → List Char → Option (List Char)
  | [], ys => some ys
  | _ :: _, [] => none
  | x :: xs, y :: ys => if x = y then stripPre xs ys else none

/-- Left-to-right non-overlapping replacement of the pattern, given as
head p0 and tail ps, by repl. The fuel argument starts at the length of
the text and bounds recursion depth; every recursive call drops at least
one character, so the fuel never runs out before the text does. -/
def replaceAllGo (p0 : Char) (ps repl : List Char) : Nat → List Char → List Char
  | 0, l => l
  | _ + 1, [] => []
  | fuel + 1, c :: cs =>
    if c = p0 then
      match stripPre ps cs with
      | some rest => repl ++ replaceAllGo p0 ps repl fuel rest
      | none => c :: replaceAllGo p0 ps repl fuel cs
    else c :: replaceAllGo p0 ps repl fuel cs

/-- String-level global replacement of a literal pattern, modelling the
replace call with a global regex holding no metacharacters. An empty
pattern does not occur in the entity table. -/
def replaceAllStr (pat repl s : String) : String :=
  match pat.data with
  | [] => s
  | p0 :: ps => String.mk (replaceAllGo p0 ps repl.data s.data.length s.data)

/-- An ASCII apostrophe as a string. -/
def aposStr : String := String.singleton (Char.ofNat 39)

/-- The named entity table of decodeHtmlEntities, in source insertion
order, which is the iteration order of Object.keys. The values for apos,
lsquo and rsquo are the ASCII apostrophe and those for ldquo and rdquo
the ASCII double quote, exactly as in the source bytes. -/
def entities : List (String × String) :=
  [("&amp;", "&"), ("&lt;", "<"), ("&gt;", ">"), ("&quot;", "\""),
   ("&apos;", aposStr), ("&nbsp;", " "), ("&ndash;", "–"), ("&mdash;", "—"),
   ("&lsquo;", aposStr), ("&rsquo;", aposStr), ("&sbquo;", "‚"),
   ("&ldquo;", "\""), ("&rdquo;", "\""), ("&bdquo;", "„")]

/-- Decimal digit test for the regex digit class. -/
def isDigitCh (c : Char) : Bool :=
  48 ≤ c.toNat && c.toNat ≤ 57

/-- Value of a decimal digit string. -/
def decDigitsToNat (ds : List Char) : Nat :=
  ds.foldl (fun n c => n * 10 + (c.toNat - 48)) 0

/-- Hexadecimal digit test for the case-insensitive class 0-9a-f. -/
def isHexCh (c : Char) : Bool :=
  (48 ≤ c.toNat && c.toNat ≤ 57) || (97 ≤ c.toNat && c.toNat ≤ 102) ||
    (65 ≤ c.toNat && c.toNat ≤ 70)

/-- Value of one hexadecimal digit. -/
def hexDigitVal (c : Char) : Nat :=
  if 48 ≤ c.toNat && c.toNat ≤ 57 then c.toNat - 48
  else if 97 ≤ c.toNat then c.toNat - 87
  else c.toNat - 55

/-- Value of a hexadecimal digit string. -/
def hexDigitsToNat (ds : List Char) : Nat :=
  ds.foldl (fun n c => n * 16 + hexDigitVal c) 0

/-- String.fromCharCode reduces its argument modulo 2 to the 16 to a
UTF-16 code unit. A code unit in the surrogate range is not a valid Lean
character and collapses to the null character; no claim touches that
range. -/
def fromCharCode (n : Nat) : Char :=
  Char.ofNat (n % 65536)

/-- Replacement of decimal character references: an ampersand, a hash,
one or more decimal digits and a semicolon are replaced by the character
with that code. Fuel as in replaceAllGo. -/
def decodeDecGo : Nat → List Char → List Char
  | 0, l => l
  | _ + 1, [] => []
  | fuel + 1, c :: cs =>
    if c = '&' then
      match cs with
      | '#' :: cs2 =>
        match cs2.dropWhile isDigitCh with
        | ';' :: rest =>
          if (cs2.takeWhile isDigitCh).isEmpty then c :: decodeDecGo fuel cs
          else fromCharCode (decDigitsToNat (cs2.takeWhile isDigitCh)) :: decodeDecGo fuel rest
        | _ => c :: decodeDecGo fuel cs
      | _ => c :: decodeDecGo fuel cs
    else c :: decodeDecGo fuel cs

/-- Replacement of hexadecimal character references, case-insensitive in
the x marker and the digits. -/
def decodeHexGo : Nat → List Char → List Char
  | 0, l => l
  | _ + 1, [] => []
  | fuel + 1, c :: cs =>
    if c = '&' then
      match cs with
      | '#' :: x :: cs2 =>
        if x = 'x' ∨ x = 'X' then
          match cs2.dropWhile isHexCh with
          | ';' :: rest =>
            if (cs2.takeWhile isHexCh).isEmpty then c :: decodeHexGo fuel cs
            else fromCharCode (hexDigitsToNat (cs2.takeWhile isHexCh)) :: decodeHexGo fuel rest
          | _ => c :: decodeHexGo fuel cs
        else c :: decodeHexGo fuel cs
      | _ => c :: decodeHexGo fuel cs
    else c :: decodeHexGo fuel cs

/-- decodeHtmlEntities from index.ts: the empty string short-circuits;
otherwise each named entity is replaced globally, sequentially in table
order, and then decimal and hexadecimal numeric references are decoded
over the resulting string. -/
def decodeHtmlEntities (text : String) : String :=
  if text = "" then ""
  else
    let named := entities.foldl (fun r ev => replaceAllStr ev.1 ev.2 r) text
    let dec := String.mk (decodeDecGo named.data.length named.data)
    String.mk (decodeHexGo dec.data.length dec.data)

/-! ## ATOM link resolution (fetchAndParseFeed, index.ts lines 188 to
204). A link element is modelled by its rel and href attributes, each
none when absent. -/

/-- A link element of an ATOM entry. -/
structure LinkEl where
  rel : Option String
  href : Option String
deriving DecidableEq

/-- The loop guard: rel strictly equal to alternate, or falsy, which for
getAttribute means absent or the empty string. -/
def relFalsyOrAlt (l : LinkEl) : Bool :=
  match l.rel with
  | none => true
  | some r => r = "alternate" || r = ""

/-- The first loop of the link resolution: scan for the first link whose
rel is alternate or falsy and take its href, defaulting to the empty
string when the href attribute is absent; the empty string when the scan
finds nothing. -/
def findAlternateHref : List LinkEl → String
  | [] => ""
  | l :: ls => if relFalsyOrAlt l then l.href.getD "" else findAlternateHref ls

/-- The fallback of the link resolution: the href of the first link
element, empty when there is none or its href is absent. -/
def firstHref : List LinkEl → String
  | [] => ""
  | l :: _ => l.href.getD ""

/-- The complete link resolution: the scanned href when it is non-empty,
otherwise the first href. -/
def resolveLink (links : List LinkEl) : String :=
  let link := findAlternateHref links
  if link = "" then firstHref links else link

/-! ## KV retry loop (putWithRetries, index.ts lines 83 to 124). The
outcome of each put attempt is environment behaviour, modelled by the
oracle put: put k = none means the k-th call to kvNamespace.put returns,
put k = some e means it throws e. The trace records the overall result,
the number of put calls made, and the sleeps performed in order. -/

/-- Trace of one putWithRetries call. -/
structure RetryTrace (ε : Type) where
  result : Except ε Unit
  calls : Nat
  delays : List Nat

/-- The while loop of putWithRetries. Fuel counts remaining loop
iterations; the loop increments attempts only in the catch branch and
throws as soon as attempts exceeds maxRetries, so with fuel
maxRetries + 1 the fuel-exhausted branch, which models the fall-through
return of the source, is never reached. -/
def retryLoop (put : Nat → Option ε) (maxRetries : Nat) :
    Nat → Nat → Nat → List Nat → RetryTrace ε
  | 0, attempts, _, ds => ⟨Except.ok (), attempts, ds⟩
  | fuel + 1, attempts, delay, ds =>
    match put attempts with
    | none => ⟨Except.ok (), attempts + 1, ds⟩
    | some e =>
      if attempts + 1 > maxRetries then ⟨Except.error e, attempts + 1, ds⟩
      else retryLoop put maxRetries fuel (attempts + 1) (delay * 2) (ds ++ [delay])

/-- putWithRetries from index.ts: attempts start at zero with the initial
delay; both call sites use the default arguments maxRetries 3 and
initialDelayMs 200. -/
def putWithRetries (put : Nat → Option ε) (maxRetries initialDelayMs : Nat) : RetryTrace ε :=
  retryLoop put maxRetries (maxRetries + 1) 0 initialDelayMs []

/-! ## Concrete fixtures used by witnesses and counterexamples. -/

/-- A date-parsing environment for concrete runs: three parseable
timestamp strings, everything else invalid. -/
def demoParse : String → Option Int := fun s =>
  if s = "T0" then some 0
  else if s = "T1" then some 1000
  else if s = "OLD" then some (-200000000)
  else none

/-- A parsed article with id x. -/
def pA : ParsedArticle :=
  ⟨"x", "http://x", "A", "", "s", "su"⟩

/-- A second parsed article with the same id x but a different title. -/
def pB : ParsedArticle :=
  ⟨"x", "http://x", "B", "", "s", "su"⟩

/-- A previously persisted article with id x and timestamp T0. -/
def aX : Article :=
  ⟨"x", "http://x", "A0", "", "s", "su", "T0"⟩

/-- A previously persisted article with id old, reproduced by no batch. -/
def aOld : Article :=
  ⟨"old", "http://old", "O", "", "s", "su", "T0"⟩

/-- An article with an unparseable timestamp. -/
def aBadA : Article :=
  ⟨"ba", "http://ba", "BA", "", "s", "su", "BAD"⟩

/-- A second article with an unparseable timestamp. -/
def aBadB : Article :=
  ⟨"bb", "http://bb", "BB", "", "s", "su", "WORSE"⟩

/-- A link element with no rel attribute. -/
def linkPlain : LinkEl := ⟨none, some "http://a"⟩

/-- A link element with rel alternate. -/
def linkAlt : LinkEl := ⟨some "alternate", some "http://b"⟩

/-- A link element with rel self. -/
def linkSelf : LinkEl := ⟨some "self", some "http://c"⟩

/-- A put oracle failing on the first two attempts and succeeding after. -/
def put2fail : Nat → Option Nat := fun k => if k < 2 then some k else none

/-- A put oracle failing on every attempt, with the attempt index as the
error. -/
def putAllFail : Nat → Option Nat := fun k => some k

/-- The ordering the sort is meant to realise: for a pair in snapshot
order, valid timestamps are descending, and a valid timestamp never
follows an invalid one. -/
def descAfter (pd : String → Option Int) (a b : Article) : Prop :=
  (∀ ta tb, pd a.publicationDatetime = some ta → pd b.publicationDatetime = some tb →
    tb ≤ ta) ∧
  (pd a.publicationDatetime = none → pd b.publicationDatetime = none)

/-! ## Helper lemmas -/

theorem toInt32_sub_emod (a : Int) : (toInt32 a - a) % 4294967296 = 0 := by
  unfold toInt32
  omega

theorem toInt32_congr {a b : Int} (h : (a - b) % 4294967296 = 0) : toInt32 a = toInt32 b := by
  unfold toInt32
  omega

theorem hashStep_eq_specHashStep (h : Int) (c : Nat) : hashStep h c = specHashStep h c := by
  unfold hashStep specHashStep
  have h1 := toInt32_sub_emod (h * 32)
  exact toInt32_congr (by omega)

theorem hashFold_eq_specHashFold (codes : List Nat) : hashFold codes = specHashFold codes := by
  unfold hashFold specHashFold
  suffices h : ∀ a, codes.foldl hashStep a = codes.foldl specHashStep a from h 0
  induction codes with
  | nil => intro a; rfl
  | cons c cs ih =>
    intro a
    simp only [List.foldl_cons, hashStep_eq_specHashStep]
    exact ih (specHashStep a c)

theorem mem_sortArticles {pd : String → Option Int} {l : List Article} {a : Article} :
    a ∈ sortArticles pd l ↔ a ∈ l :=
  (List.mergeSort_perm l _).mem_iff

theorem mem_filterRecent {pd : String → Option Int} {now : Int} {l : List Article}
    {a : Article} :
    a ∈ filterRecent pd now l ↔
      a ∈ l ∧ isWithinLast48Hours pd now a.publicationDatetime = true := by
  simp [filterRecent, List.mem_filter]

theorem isWithin_iff {pd : String → Option Int} {now : Int} {s : String} :
    isWithinLast48Hours pd now s = true ↔ ∃ t, pd s = some t ∧ now - t ≤ 172800000 := by
  unfold isWithinLast48Hours
  cases h : pd s with
  | none => simp
  | some t => simp

theorem mem_mergedSnapshot {pd : String → Option Int} {now : Int} {nowIso : String}
    {prev : List Article} {batches : List (List ParsedArticle)} {a : Article} :
    a ∈ mergedSnapshot pd now nowIso prev batches ↔
      a ∈ mergeArticles prev batches.flatten nowIso ∧
        isWithinLast48Hours pd now a.publicationDatetime = true := by
  unfold mergedSnapshot
  rw [mem_sortArticles, mem_filterRecent]

/-! ## C8 -/

/-- C8: for every code-unit sequence, hashUrl equals the base-36
rendering of the absolute value of the fold of h to toInt32 of
h * 31 + code, starting from 0, over the UTF-16 code units; being a Lean
function of the code units alone, it is pure and deterministic. -/
theorem hashUrl_closed_form (codes : List Nat) :
    hashUrl codes = toBase36 (specHashFold codes).natAbs := by
  unfold hashUrl
  rw [hashFold_eq_specHashFold]

/-! ## C3 -/

/-- C3: every article of a merged output snapshot has a timestamp that
parses and lies at most 48 hours (172800000 milliseconds) before the
merge wall clock; every older article was removed by the post-merge
filter. -/
theorem mergedSnapshot_window (pd : String → Option Int) (now : Int) (nowIso : String)
    (prev : List Article) (batches : List (List ParsedArticle)) (a : Article)
    (ha : a ∈ mergedSnapshot pd now nowIso prev batches) :
    ∃ t, pd a.publicationDatetime = some t ∧ now - t ≤ 172800000 :=
  isWithin_iff.mp (mem_mergedSnapshot.mp ha).2

/-- Concrete run of the window theorem in the demo environment. -/
theorem mergedSnapshot_window_witness :
    ∃ t, demoParse (articleOf pA "T0").publicationDatetime = some t ∧
      (0 : Int) - t ≤ 172800000 :=
  mergedSnapshot_window demoParse 0 "T0" [] [[pA]] (articleOf pA "T0")
    (mem_mergedSnapshot.mpr (by decide))

/-! ## C4 -/

/-- C4: an id present in the previous snapshot but reproduced by no
parsed batch of the cycle appears nowhere in the merged output snapshot,
however recent its timestamp. -/
theorem mergedSnapshot_disappearance (pd : String → Option Int) (now : Int) (nowIso : String)
    (prev : List Article) (batches : List (List ParsedArticle)) (i : String)
    (_hprev : ∃ e, existingGet prev i = some e)
    (habsent : ∀ p ∈ batches.flatten, p.id ≠ i) :
    ∀ a ∈ mergedSnapshot pd now nowIso prev batches, a.id ≠ i := by
  intro a ha
  obtain ⟨hmem, _⟩ := mem_mergedSnapshot.mp ha
  obtain ⟨p, hp, heq⟩ := List.mem_map.mp hmem
  rw [← heq]
  exact habsent p hp

/-- Concrete run of the disappearance theorem: id old is in the previous
snapshot, no batch reproduces it, and the sole merged article does not
carry it. -/
theorem mergedSnapshot_disappearance_witness : (articleOf pA "T0").id ≠ "old" :=
  mergedSnapshot_disappearance demoParse 0 "T0" [aOld] [[pA]] "old"
    ⟨aOld, by decide⟩ (by decide) (articleOf pA "T0")
    (mem_mergedSnapshot.mpr (by decide))

/-! ## C2 -/

/-- C2: every merged article takes all non-timestamp fields from its
parsed record; its publicationDatetime is the prior value when the id is
in the previous snapshot and the merge wall-clock ISO string when it is
not; consequently a batch reproducing every existing id leaves every
publicationDatetime unchanged. -/
theorem mergeArticles_timestamp_resolution (prev : List Article)
    (parsed : List ParsedArticle) (nowIso : String) :
    (∀ b ∈ mergeArticles prev parsed nowIso,
      (∃ p ∈ parsed, b = articleOf p b.publicationDatetime) ∧
      (∀ e, existingGet prev b.id = some e →
        b.publicationDatetime = e.publicationDatetime) ∧
      (existingGet prev b.id = none → b.publicationDatetime = nowIso)) ∧
    ((∀ p ∈ parsed, ∃ e, existingGet prev p.id = some e) →
      ∀ b ∈ mergeArticles prev parsed nowIso,
        ∃ e, existingGet prev b.id = some e ∧
          b.publicationDatetime = e.publicationDatetime) := by
  constructor
  · intro b hb
    obtain ⟨p, hp, heq⟩ := List.mem_map.mp hb
    subst heq
    refine ⟨⟨p, hp, rfl⟩, ?_, ?_⟩
    · intro e he
      show resolvePub prev nowIso p.id = e.publicationDatetime
      have he' : existingGet prev p.id = some e := he
      simp [resolvePub, he']
    · intro hn
      show resolvePub prev nowIso p.id = nowIso
      have hn' : existingGet prev p.id = none := hn
      simp [resolvePub, hn']
  · intro hall b hb
    obtain ⟨p, hp, heq⟩ := List.mem_map.mp hb
    subst heq
    obtain ⟨e, he⟩ := hall p hp
    refine ⟨e, he, ?_⟩
    show resolvePub prev nowIso p.id = e.publicationDatetime
    simp [resolvePub, he]

/-- Concrete runs of the timestamp resolution theorem: an existing id
keeps its prior timestamp, a new id takes the merge wall clock, and a
batch reproducing the only existing id changes no timestamp. -/
theorem mergeArticles_timestamp_resolution_witness :
    (articleOf pA "T0").publicationDatetime = aX.publicationDatetime ∧
    (articleOf pB "T1").publicationDatetime = "T1" ∧
    (∃ e, existingGet [aX] (articleOf pA "T0").id = some e ∧
      (articleOf pA "T0").publicationDatetime = e.publicationDatetime) := by
  refine ⟨?_, ?_, ?_⟩
  · exact ((mergeArticles_timestamp_resolution [aX] [pA] "T1").1 (articleOf pA "T0")
      (by decide)).2.1 aX (by decide)
  · exact ((mergeArticles_timestamp_resolution [] [pB] "T1").1 (articleOf pB "T1")
      (by decide)).2.2 (by decide)
  · refine (mergeArticles_timestamp_resolution [aX] [pA] "T1").2 ?_ (articleOf pA "T0")
      (by decide)
    intro p hp
    have hp' : p = pA := by simpa using hp
    subst hp'
    exact ⟨aX, by decide⟩

/-! ## C9 -/

/-- C9: the window predicate is false on every timestamp that fails to
parse, so every article handed to the sort and to persistence has a
parseable timestamp, and on snapshot members the comparator always takes
its valid-valid branch. -/
theorem invalid_timestamps_unreachable (pd : String → Option Int) (now : Int)
    (nowIso : String) (prev : List Article) (batches : List (List ParsedArticle)) :
    (∀ s, pd s = none → isWithinLast48Hours pd now s = false) ∧
    (∀ a ∈ filterRecent pd now (mergeArticles prev batches.flatten nowIso),
      (pd a.publicationDatetime).isSome) ∧
    (∀ a b, a ∈ mergedSnapshot pd now nowIso prev batches →
      b ∈ mergedSnapshot pd now nowIso prev batches →
      ∃ ta tb, pd a.publicationDatetime = some ta ∧ pd b.publicationDatetime = some tb ∧
        cmpArticles pd a b = tb - ta) := by
  refine ⟨?_, ?_, ?_⟩
  · intro s hs
    unfold isWithinLast48Hours
    rw [hs]
  · intro a ha
    obtain ⟨t, ht, _⟩ := isWithin_iff.mp (mem_filterRecent.mp ha).2
    rw [ht]
    rfl
  · intro a b ha hb
    obtain ⟨ta, hta, _⟩ := isWithin_iff.mp (mem_mergedSnapshot.mp ha).2
    obtain ⟨tb, htb, _⟩ := isWithin_iff.mp (mem_mergedSnapshot.mp hb).2
    exact ⟨ta, tb, hta, htb, by simp [cmpArticles, hta, htb]⟩

/-- Concrete runs of the unreachability theorem: the invalid timestamp
BAD fails the window predicate, and the comparator on two snapshot
members computes the timestamp difference. -/
theorem invalid_timestamps_unreachable_witness :
    isWithinLast48Hours demoParse 0 "BAD" = false ∧
    (∃ ta tb, demoParse (articleOf pA "T0").publicationDatetime = some ta ∧
      demoParse (articleOf pB "T0").publicationDatetime = some tb ∧
      cmpArticles demoParse (articleOf pA "T0") (articleOf pB "T0") = tb - ta) := by
  constructor
  · exact (invalid_timestamps_unreachable demoParse 0 "T0" [] []).1 "BAD" (by decide)
  · exact (invalid_timestamps_unreachable demoParse 0 "T1" [aX] [[pA, pB]]).2.2
      (articleOf pA "T0") (articleOf pB "T0")
      (mem_mergedSnapshot.mpr (by decide)) (mem_mergedSnapshot.mpr (by decide))

/-! ## C7 -/

theorem cmp_le_trans (pd : String → Option Int) (x y z : Article)
    (h1 : cmpArticles pd x y ≤ 0) (h2 : cmpArticles pd y z ≤ 0) :
    cmpArticles pd x z ≤ 0 := by
  unfold cmpArticles at *
  rcases hx : pd x.publicationDatetime with _ | ta <;>
    rcases hy : pd y.publicationDatetime with _ | tb <;>
      rcases hz : pd z.publicationDatetime with _ | tc <;>
        simp_all <;> omega

theorem cmp_le_total (pd : String → Option Int) (x y : Article) :
    cmpArticles pd x y ≤ 0 ∨ cmpArticles pd y x ≤ 0 := by
  unfold cmpArticles
  rcases hx : pd x.publicationDatetime with _ | ta <;>
    rcases hy : pd y.publicationDatetime with _ | tb <;> simp <;> omega

theorem cmp_le_descAfter (pd : String → Option Int) (a b : Article)
    (h : cmpArticles pd a b ≤ 0) : descAfter pd a b := by
  unfold cmpArticles at h
  constructor
  · intro ta tb hta htb
    rw [hta, htb] at h
    simpa using h
  · intro hna
    cases hb : pd b.publicationDatetime with
    | none => rfl
    | some tb =>
      rw [hna, hb] at h
      simp at h

/-- C7: the merged snapshot is a permutation of the filtered merge that
is pairwise in descending publicationDatetime order with unparseable
timestamps after every valid one, and the comparator expresses no
preference between two unparseable timestamps. -/
theorem mergedSnapshot_sorted_desc (pd : String → Option Int) (now : Int) (nowIso : String)
    (prev : List Article) (batches : List (List ParsedArticle)) :
    (mergedSnapshot pd now nowIso prev batches).Pairwise (descAfter pd) ∧
    (mergedSnapshot pd now nowIso prev batches).Perm
      (filterRecent pd now (mergeArticles prev batches.flatten nowIso)) ∧
    (∀ a b : Article, pd a.publicationDatetime = none → pd b.publicationDatetime = none →
      cmpArticles pd a b = 0) := by
  refine ⟨?_, ?_, ?_⟩
  · have hs := @List.sorted_mergeSort Article
      (fun a b : Article => decide (cmpArticles pd a b ≤ 0))
      (fun a b c hab hbc => by
        simp only [decide_eq_true_eq] at *
        exact cmp_le_trans pd a b c hab hbc)
      (fun a b => by
        simp only [Bool.or_eq_true, decide_eq_true_eq]
        exact cmp_le_total pd a b)
      (filterRecent pd now (mergeArticles prev batches.flatten nowIso))
    refine List.Pairwise.imp ?_ hs
    intro a b hab
    exact cmp_le_descAfter pd a b (by simpa using hab)
  · exact List.mergeSort_perm _ _
  · intro a b ha hb
    simp [cmpArticles, ha, hb]

/-- Concrete run of the sorting theorem: the comparator returns 0 on two
articles with unparseable timestamps. -/
theorem mergedSnapshot_sorted_desc_witness : cmpArticles demoParse aBadA aBadB = 0 :=
  (mergedSnapshot_sorted_desc demoParse 0 "T0" [] []).2.2 aBadA aBadB
    (by decide) (by decide)

/-! ## C5 -/

theorem findAlternateHref_append (pre : List LinkEl) (l : LinkEl) (post : List LinkEl)
    (hpre : ∀ x ∈ pre, relFalsyOrAlt x = false) (hl : relFalsyOrAlt l = true) :
    findAlternateHref (pre ++ l :: post) = l.href.getD "" := by
  induction pre with
  | nil => simp [findAlternateHref, hl]
  | cons q qs ih =>
    have hq := hpre q (by simp)
    simp only [List.cons_append, findAlternateHref, hq, Bool.false_eq_true, if_false]
    exact ih fun x hx => hpre x (by simp [hx])

theorem findAlternateHref_none (links : List LinkEl)
    (h : ∀ x ∈ links, relFalsyOrAlt x = false) :
    findAlternateHref links = "" := by
  induction links with
  | nil => rfl
  | cons q qs ih =>
    have hq := h q (by simp)
    simp only [findAlternateHref, hq, Bool.false_eq_true, if_false]
    exact ih fun x hx => h x (by simp [hx])

/-- C5 counterexample: an entry whose first link carries no rel attribute
and whose second link is the alternate one resolves to the first href,
not to the alternate href, refuting the claim as stated. -/
theorem resolveLink_alternate_not_preferred :
    resolveLink [linkPlain, linkAlt] = "http://a" ∧
    linkAlt ∈ [linkPlain, linkAlt] ∧ linkAlt.rel = some "alternate" ∧
    linkAlt.href = some "http://b" ∧ resolveLink [linkPlain, linkAlt] ≠ "http://b" := by
  decide

/-- C5 amended: the resolved url is the href of the first link whose rel
attribute is alternate, absent or empty, with the first href of the list
as fallback when that href is empty or missing; and when no such link
exists at all, the first href of the list is used. -/
theorem resolveLink_resolution :
    (∀ (pre : List LinkEl) (l : LinkEl) (post : List LinkEl),
      (∀ x ∈ pre, relFalsyOrAlt x = false) → relFalsyOrAlt l = true →
      resolveLink (pre ++ l :: post) =
        if l.href.getD "" = "" then firstHref (pre ++ l :: post) else l.href.getD "") ∧
    (∀ links : List LinkEl, (∀ x ∈ links, relFalsyOrAlt x = false) →
      resolveLink links = firstHref links) := by
  constructor
  · intro pre l post hpre hl
    unfold resolveLink
    rw [findAlternateHref_append pre l post hpre hl]
  · intro links h
    unfold resolveLink
    rw [findAlternateHref_none links h]
    simp

/-- Concrete runs of the link resolution theorem: a leading alternate
link wins, and a lone rel self link falls back to the first href. -/
theorem resolveLink_resolution_witness :
    resolveLink [linkAlt, linkPlain] =
      (if linkAlt.href.getD "" = "" then firstHref [linkAlt, linkPlain]
       else linkAlt.href.getD "") ∧
    resolveLink [linkSelf] = firstHref [linkSelf] := by
  constructor
  · exact resolveLink_resolution.1 [] linkAlt [linkPlain] (by decide) (by decide)
  · exact resolveLink_resolution.2 [linkSelf] (by decide)

/-! ## C1 -/

theorem count_filter_merge (pd : String → Option Int) (now : Int) (nowIso : String)
    (prev : List Article) (l : List ParsedArticle) (i : String) :
    ((filterRecent pd now (mergeArticles prev l nowIso)).map Article.id).count i =
      if isWithinLast48Hours pd now (resolvePub prev nowIso i) then
        (l.map ParsedArticle.id).count i
      else 0 := by
  induction l with
  | nil =>
    simp [mergeArticles, filterRecent]
  | cons p t ih =>
    by_cases hpi : p.id = i
    · subst hpi
      by_cases hC : isWithinLast48Hours pd now (resolvePub prev nowIso p.id) = true
      · simp only [mergeArticles, List.map_cons, filterRecent, List.filter_cons,
          articleOf, hC, if_true, List.count_cons_self] at *
        rw [ih]
      · have hC' : isWithinLast48Hours pd now (resolvePub prev nowIso p.id) = false :=
          Bool.eq_false_iff.mpr hC
        simp only [mergeArticles, List.map_cons, filterRecent, List.filter_cons,
          articleOf, hC', Bool.false_eq_true, if_false] at *
        rw [ih]
    · by_cases hCp : isWithinLast48Hours pd now (resolvePub prev nowIso p.id) = true
      · simp only [mergeArticles, List.map_cons, filterRecent, List.filter_cons,
          articleOf, hCp, if_true] at *
        rw [List.count_cons_of_ne (fun h => hpi h.symm), ih,
          List.count_cons_of_ne (fun h => hpi h.symm)]
      · have hC' : isWithinLast48Hours pd now (resolvePub prev nowIso p.id) = false :=
          Bool.eq_false_iff.mpr hCp
        simp only [mergeArticles, List.map_cons, filterRecent, List.filter_cons,
          articleOf, hC', Bool.false_eq_true, if_false] at *
        rw [ih, List.count_cons_of_ne (fun h => hpi h.symm)]

/-- C1 amended: the merge step performs no deduplication; for every id,
the merged snapshot holds as many articles with that id as the flattened
batches hold parsed articles with it, whenever its resolved timestamp
passes the 48-hour filter, and none otherwise, so an id appearing in
several batch positions appears just as often in the snapshot. -/
theorem mergedSnapshot_keeps_duplicates (pd : String → Option Int) (now : Int)
    (nowIso : String) (prev : List Article) (batches : List (List ParsedArticle))
    (i : String) :
    ((mergedSnapshot pd now nowIso prev batches).map Article.id).count i =
      if isWithinLast48Hours pd now (resolvePub prev nowIso i) then
        (batches.flatten.map ParsedArticle.id).count i
      else 0 := by
  unfold mergedSnapshot sortArticles
  rw [((List.mergeSort_perm _ _).map Article.id).count_eq]
  exact count_filter_merge pd now nowIso prev batches.flatten i

/-- C1 counterexample: with an empty previous snapshot and one batch
holding two parsed articles that share id x, the merged snapshot holds
two articles with id x, so its id sequence is not duplicate-free and no
occurrence was dropped. -/
theorem mergedSnapshot_duplicate_ids :
    ((mergedSnapshot demoParse 0 "T0" [] [[pA, pB]]).map Article.id).count "x" = 2 ∧
    ¬ ((mergedSnapshot demoParse 0 "T0" [] [[pA, pB]]).map Article.id).Nodup := by
  have hc : ((mergedSnapshot demoParse 0 "T0" [] [[pA, pB]]).map Article.id).count "x" = 2 := by
    unfold mergedSnapshot sortArticles
    rw [((List.mergeSort_perm _ _).map Article.id).count_eq]
    decide
  refine ⟨hc, fun hnd => ?_⟩
  have h1 := List.nodup_iff_count_le_one.mp hnd "x"
  omega

/-! ## C6 -/

/-- C6: each KV write makes at most 1 + maxRetries put attempts with the
inter-attempt delays a prefix of 200, 400, 800; any successful attempt
within the budget makes the overall call succeed, two failures followed
by a success succeed after sleeping 200 then 400 milliseconds, and four
failures make the call rethrow the last error. -/
theorem putWithRetries_behavior {ε : Type} (put : Nat → Option ε) :
    ((putWithRetries put 3 200).calls ≤ 4 ∧
      (putWithRetries put 3 200).delays ∈
        [([] : List Nat), [200], [200, 400], [200, 400, 800]]) ∧
    ((∃ k, k ≤ 3 ∧ put k = none) → (putWithRetries put 3 200).result = Except.ok ()) ∧
    (∀ e0 e1, put 0 = some e0 → put 1 = some e1 → put 2 = none →
      putWithRetries put 3 200 = ⟨Except.ok (), 3, [200, 400]⟩) ∧
    (∀ e0 e1 e2 e3, put 0 = some e0 → put 1 = some e1 → put 2 = some e2 →
      put 3 = some e3 →
      putWithRetries put 3 200 = ⟨Except.error e3, 4, [200, 400, 800]⟩) := by
  refine ⟨?_, ?_, ?_, ?_⟩
  · rcases h0 : put 0 with _ | e0 <;> rcases h1 : put 1 with _ | e1 <;>
      rcases h2 : put 2 with _ | e2 <;> rcases h3 : put 3 with _ | e3 <;>
        simp [putWithRetries, retryLoop, h0, h1, h2, h3]
  · rintro ⟨k, hk, hput⟩
    rcases h0 : put 0 with _ | e0
    · simp [putWithRetries, retryLoop, h0]
    · rcases h1 : put 1 with _ | e1
      · simp [putWithRetries, retryLoop, h0, h1]
      · rcases h2 : put 2 with _ | e2
        · simp [putWithRetries, retryLoop, h0, h1, h2]
        · rcases h3 : put 3 with _ | e3
          · simp [putWithRetries, retryLoop, h0, h1, h2, h3]
          · exfalso
            have hk4 : k = 0 ∨ k = 1 ∨ k = 2 ∨ k = 3 := by omega
            rcases hk4 with rfl | rfl | rfl | rfl <;> simp_all
  · intro e0 e1 he0 he1 he2
    simp [putWithRetries, retryLoop, he0, he1, he2]
  · intro e0 e1 e2 e3 he0 he1 he2 he3
    simp [putWithRetries, retryLoop, he0, he1, he2, he3]

/-- Concrete runs of the retry theorem: two failures then a success give
an overall success after sleeping 200 and 400 milliseconds, and four
failures rethrow the last error after sleeping 200, 400 and 800. -/
theorem putWithRetries_behavior_witness :
    putWithRetries put2fail 3 200 = ⟨Except.ok (), 3, [200, 400]⟩ ∧
    putWithRetries putAllFail 3 200 = ⟨Except.error 3, 4, [200, 400, 800]⟩ :=
  ⟨(putWithRetries_behavior put2fail).2.2.1 0 1 rfl rfl rfl,
   (putWithRetries_behavior putAllFail).2.2.2 0 1 2 3 rfl rfl rfl rfl⟩

/-! ## C10 -/

/-- C10: the named entity replacements run sequentially over the whole
string in table order with numeric references decoded afterwards, so a
doubly encoded fragment decodes twice: the amp-encoded lt collapses all
the way to the less-than character rather than stopping at the literal
entity text, and the amp-encoded decimal reference 65 becomes the letter
A. -/
theorem decodeHtmlEntities_double_decode :
    decodeHtmlEntities "&amp;lt;" = "<" ∧ decodeHtmlEntities "&amp;#65;" = "A" ∧
    decodeHtmlEntities "&amp;lt;" ≠ "&lt;" := by
  decide

end CloudRss
